import Mathlib

/-!
# Verification of the csv_tools_rust row-length analysis engine

Shallow embedding of the two Rust sources:

* `src/csv_row_analyzer_parallel_rust/src/csv_row_analyzer_parallel.rs`
  (parallel chunked mode: ingest, chunk, worker, aggregate/sort, statistics,
  distributions, outliers), and
* `src/csv_row_analyzer_rust/src/csv_row_analyzer.rs`
  (single-threaded streaming mode; its `calculate_statistics`,
  `generate_pages_report` and outlier code are textually identical to the
  parallel variant's, so they are embedded once).

Conventions of the embedding:

* Rust `usize` becomes `Nat`, `isize` becomes `Int` (the values involved are
  tiny relative to the machine widths, no overflow is reachable for the
  stated properties).
* `f64` arithmetic on the statistics (`mean`, the IQR thresholds, variance)
  is idealized as exact rational arithmetic `ℚ`; `f64::sqrt` is idealized as
  `Real.sqrt`.  The `Statistics` record therefore stores the variance
  (the radicand) and `Statistics.std_dev` is `Real.sqrt` of it, which keeps
  the record computable.
* A line read from the file is `Option String`: `some line` for `Ok(line)`,
  `none` for a per-line read error (`Err(_)`); the error payload is never
  inspected by the code being verified.
* `String.length` counts Unicode scalar values, exactly like Rust's
  `line.chars().count()`.
* Rust's stable `sort_by_key` / `sort_by` / `sort` are modelled by the
  stable `List.insertionSort`.
* A `HashMap<K, V>` accumulator is modelled as a function `K → V` updated by
  folding over the iteration, mirroring `*map.entry(k).or_insert(0) += 1`;
  the derived vectors are canonical because the code sorts them by their
  (distinct) keys before use, so the hash-iteration order is immaterial.
-/

namespace CsvTools

/-- `const CHARS_PER_PAGE: usize = 3000;` (both variants). -/
def CHARS_PER_PAGE : Nat := 3000

/-- `const WORKER_THREADS: usize = 8;` (parallel variant).  The pipeline
below is parametrized by the worker count `W`; the shipped binary fixes
`W = WORKER_THREADS`. -/
def WORKER_THREADS : Nat := 8

/-- `struct Statistics` (identical in both variants).  The source stores
`mean: f64`, `std_dev: f64`; here `mean` and the variance are exact
rationals and the standard deviation is recovered as `Real.sqrt variance`
(see `Statistics.std_dev`). -/
structure Statistics where
  min : Nat
  max : Nat
  mean : ℚ
  median : Nat
  q1 : Nat
  q3 : Nat
  variance : ℚ
deriving Repr, DecidableEq

/-- `let std_dev = variance.sqrt();` idealized over the reals. -/
noncomputable def Statistics.std_dev (s : Statistics) : ℝ :=
  Real.sqrt (s.variance : ℝ)

/-- `sorted.sort()` — ascending stable sort of the copied lengths. -/
def sortAsc (l : List Nat) : List Nat :=
  l.insertionSort (fun a b => a ≤ b)

/-- `fn calculate_statistics(lengths: &[usize]) -> Statistics` (identical in
both variants).  Out-of-range indexing cannot occur (proved below via
`calculate_statistics_checked`); the embedding uses `List.getD _ 0` for the
`sorted[i]` accesses. -/
def calculate_statistics (lengths : List Nat) : Statistics :=
  if lengths.isEmpty then
    { min := 0, max := 0, mean := 0, median := 0, q1 := 0, q3 := 0, variance := 0 }
  else
    let sorted := sortAsc lengths
    let len := sorted.length
    let mn := sorted.headD 0
    let mx := sorted.getLastD 0
    let sum := sorted.sum
    let mean : ℚ := (sum : ℚ) / (len : ℚ)
    let median :=
      if len % 2 = 0 then (sorted.getD (len / 2 - 1) 0 + sorted.getD (len / 2) 0) / 2
      else sorted.getD (len / 2) 0
    let q1_idx := len / 4
    let q1 :=
      if len % 4 = 0 then (sorted.getD (q1_idx - 1) 0 + sorted.getD q1_idx 0) / 2
      else sorted.getD q1_idx 0
    let q3_idx := 3 * len / 4
    let q3 :=
      if 3 * len % 4 = 0 then (sorted.getD (q3_idx - 1) 0 + sorted.getD q3_idx 0) / 2
      else sorted.getD q3_idx 0
    let variance : ℚ :=
      ((sorted.map (fun (x : Nat) => ((x : ℚ) - mean) * ((x : ℚ) - mean))).sum) / (len : ℚ)
    { min := mn, max := mx, mean := mean, median := median, q1 := q1, q3 := q3,
      variance := variance }

/-- `calculate_statistics` with every `sorted[i]` access replaced by the
checked `List.get?`, so that any out-of-bounds index would surface as
`none` (the Option analogue of a Rust index panic). -/
def calculate_statistics_checked (lengths : List Nat) : Option Statistics :=
  if lengths.isEmpty then
    some { min := 0, max := 0, mean := 0, median := 0, q1 := 0, q3 := 0, variance := 0 }
  else
    let sorted := sortAsc lengths
    let len := sorted.length
    do
      let mn ← sorted.head?
      let mx ← sorted.getLast?
      let sum := sorted.sum
      let mean : ℚ := (sum : ℚ) / (len : ℚ)
      let median ←
        if len % 2 = 0 then do
          let a ← sorted.get? (len / 2 - 1)
          let b ← sorted.get? (len / 2)
          pure ((a + b) / 2)
        else sorted.get? (len / 2)
      let q1_idx := len / 4
      let q1 ←
        if len % 4 = 0 then do
          let a ← sorted.get? (q1_idx - 1)
          let b ← sorted.get? q1_idx
          pure ((a + b) / 2)
        else sorted.get? q1_idx
      let q3_idx := 3 * len / 4
      let q3 ←
        if 3 * len % 4 = 0 then do
          let a ← sorted.get? (q3_idx - 1)
          let b ← sorted.get? q3_idx
          pure ((a + b) / 2)
        else sorted.get? q3_idx
      let variance : ℚ :=
        ((sorted.map (fun (x : Nat) => ((x : ℚ) - mean) * ((x : ℚ) - mean))).sum) / (len : ℚ)
      pure { min := mn, max := mx, mean := mean, median := median, q1 := q1, q3 := q3,
             variance := variance }

/-! ## Spec-side statistics rule (for the refinement claim)

The following definitions are written from the words of spec §4.3
(steps 3–7), to be compared with the source embedding above.  They take the
already-sorted list, as the spec's steps do. -/

/-- Spec §4.3 step 4: the median of the sorted list — the (integer) average
of the two central elements when `n` is even, the single central element
when `n` is odd. -/
def spec_median (sorted : List Nat) : Nat :=
  let n := sorted.length
  if n % 2 = 0 then (sorted.getD (n / 2 - 1) 0 + sorted.getD (n / 2) 0) / 2
  else sorted.getD (n / 2) 0

/-- Spec §4.3 step 5: `q1_index = n / 4` (integer division);
`q1 = average(sorted[q1_index-1], sorted[q1_index])` if `n % 4 == 0`, else
`sorted[q1_index]`. -/
def spec_q1 (sorted : List Nat) : Nat :=
  let n := sorted.length
  if n % 4 = 0 then (sorted.getD (n / 4 - 1) 0 + sorted.getD (n / 4) 0) / 2
  else sorted.getD (n / 4) 0

/-- Spec §4.3 step 6: `q3_index = 3n / 4` (integer division);
`q3 = average(sorted[q3_index-1], sorted[q3_index])` if `3n % 4 == 0`, else
`sorted[q3_index]`. -/
def spec_q3 (sorted : List Nat) : Nat :=
  let n := sorted.length
  if 3 * n % 4 = 0 then (sorted.getD (3 * n / 4 - 1) 0 + sorted.getD (3 * n / 4) 0) / 2
  else sorted.getD (3 * n / 4) 0

/-- Spec §4.3 steps 3 and 7: `mean = sum / n` and the population variance
with divisor `n` (not `n - 1`). -/
def spec_population_variance (sorted : List Nat) : ℚ :=
  let n := sorted.length
  let mean : ℚ := ((sorted.sum : ℚ)) / (n : ℚ)
  ((sorted.map (fun (x : Nat) => ((x : ℚ) - mean) * ((x : ℚ) - mean))).sum) / (n : ℚ)

/-! ## Ingestion, partitioning, workers, aggregation (parallel variant) -/

/-- `struct RowEntry { file_row: usize, char_count: usize }`. -/
structure RowEntry where
  file_row : Nat
  char_count : Nat
deriving Repr, DecidableEq

/-- The read loop
`for (idx, line_result) in reader.lines().enumerate()` with
`file_row = idx + 1`: `Ok(line)` is pushed as `(file_row, line)`, `Err(_)`
is skipped (counted by `error_count`).  `idx` is the running 0-based
enumeration index. -/
def all_lines_from (idx : Nat) : List (Option String) → List (Nat × String)
  | [] => []
  | none :: rest => all_lines_from (idx + 1) rest
  | some line :: rest => (idx + 1, line) :: all_lines_from (idx + 1) rest

/-- `all_lines` as accumulated by the read loop starting at `idx = 0`. -/
def all_lines (lines : List (Option String)) : List (Nat × String) :=
  all_lines_from 0 lines

/-- The running `error_count` of the read loop. -/
def error_count (lines : List (Option String)) : Nat :=
  (lines.filter (fun r => r.isNone)).length

/-- `let lines_per_chunk = (all_lines.len() / WORKER_THREADS) + 1;`. -/
def lines_per_chunk (total W : Nat) : Nat :=
  total / W + 1

/-- Rust's `slice::chunks(k)`: splits into contiguous chunks of `k`
elements, the last chunk possibly shorter; the empty slice yields no
chunks.  (`chunks(0)` panics in Rust; the embedding returns `[]`, and every
call site below passes `lines_per_chunk _ _ ≥ 1`.) -/
def chunksOf {α : Type} (k : Nat) (l : List α) : List (List α) :=
  if h : l.isEmpty = true ∨ k = 0 then []
  else l.take k :: chunksOf k (l.drop k)
termination_by l.length
decreasing_by
  push_neg at h
  have h0 : 0 < l.length := by
    cases l with
    | nil => simp at h
    | cons a t => simp
  have hk : 0 < k := Nat.pos_of_ne_zero h.2
  simp only [List.length_drop]
  omega

/-- The worker-thread body: fold over the chunk pushing
`RowEntry { file_row, char_count: line.chars().count() }` and accumulating
`local_total_chars`. -/
def worker (chunk : List (Nat × String)) : List RowEntry × Nat :=
  chunk.foldl
    (fun acc p => (acc.1 ++ [{ file_row := p.1, char_count := p.2.length }], acc.2 + p.2.length))
    ([], 0)

/-- The chunking performed by the parallel `analyze_csv_row_lengths`. -/
def chunks_of_lines (lines : List (Option String)) (W : Nat) : List (List (Nat × String)) :=
  chunksOf (lines_per_chunk (all_lines lines).length W) (all_lines lines)

/-- The join loop: `all_row_entries.extend(thread_entries)` over all worker
handles in spawn order. -/
def joined_row_entries (chunks : List (List (Nat × String))) : List RowEntry :=
  (chunks.map (fun c => (worker c).1)).flatten

/-- The join loop's `total_chars += thread_chars` grand total. -/
def grand_total_chars (chunks : List (List (Nat × String))) : Nat :=
  (chunks.map (fun c => (worker c).2)).sum

instance : DecidableRel (fun a b : RowEntry => a.file_row ≤ b.file_row) :=
  fun a b => Nat.decLe a.file_row b.file_row

/-- `all_row_entries.sort_by_key(|entry| entry.file_row);` — a stable sort
ascending by `file_row`. -/
def sortByFileRow (entries : List RowEntry) : List RowEntry :=
  entries.insertionSort (fun a b => a.file_row ≤ b.file_row)

/-- Aggregator: concatenated worker outputs, sorted by `file_row`. -/
def aggregated_entries (chunks : List (List (Nat × String))) : List RowEntry :=
  sortByFileRow (joined_row_entries chunks)

/-- The full parallel pipeline up to the sorted Corpus, for worker count
`W`. -/
def corpus (lines : List (Option String)) (W : Nat) : List RowEntry :=
  aggregated_entries (chunks_of_lines lines W)

/-- `row_entries`: the Corpus with `data_index` assigned —
`-1` if `entry.file_row == 1`, else `(i as isize) - 1` at 0-based
enumeration position `i`. -/
def row_entries (lines : List (Option String)) (W : Nat) : List (Nat × Int × Nat) :=
  (corpus lines W).enum.map (fun p =>
    (p.2.file_row, if p.2.file_row = 1 then (-1 : Int) else (p.1 : Int) - 1, p.2.char_count))

/-- `all_row_lengths` extracted from `row_entries` in the parallel
variant. -/
def parallel_row_lengths (lines : List (Option String)) (W : Nat) : List Nat :=
  (row_entries lines W).map (fun p => p.2.2)

/-! ## Streaming variant ingestion -/

/-- The streaming read loop of `csv_row_analyzer.rs`: each `Ok(line)`
pushes `line.chars().count()` onto `all_row_lengths`, each `Err(_)` is
skipped. -/
def streaming_row_lengths (lines : List (Option String)) : List Nat :=
  lines.filterMap (fun r => r.map (fun line => line.length))

/-! ## Frequency tables and page buckets -/

/-- `*map.entry(k).or_insert(0) += 1` on a `HashMap` modelled as a count
function. -/
def updateCount (m : Nat → Nat) (k : Nat) : Nat → Nat :=
  fun x => if x = k then m k + 1 else m x

/-- `row_length_counts`: the `char_count → count` accumulation loop. -/
def row_length_counts (lengths : List Nat) : Nat → Nat :=
  lengths.foldl updateCount (fun _ => 0)

/-- `let pages = (char_count + CHARS_PER_PAGE - 1) / CHARS_PER_PAGE;`
(identical expression in both variants). -/
def page_bucket (char_count : Nat) : Nat :=
  (char_count + CHARS_PER_PAGE - 1) / CHARS_PER_PAGE

/-- `page_length_counts`: the `page_bucket → count` accumulation loop. -/
def page_length_counts (lengths : List Nat) : Nat → Nat :=
  lengths.foldl (fun m c => updateCount m (page_bucket c)) (fun _ => 0)

instance : DecidableRel (fun a b : Nat => b ≤ a) :=
  fun a b => Nat.decLe b a

/-- Descending stable sort on `Nat` (`sort_by(|a, b| b.cmp(a))`). -/
def sortDescNat (l : List Nat) : List Nat :=
  l.insertionSort (fun a b => b ≤ a)

/-- Ascending stable sort on `Nat` (`sort_by(|a, b| a.cmp(b))`). -/
def sortAscNat (l : List Nat) : List Nat :=
  l.insertionSort (fun a b => a ≤ b)

/-- `length_counts_vec`: the `HashMap` of length counts collected into a
vector and sorted descending by length.  The keys are the distinct lengths
(`dedup` in first-seen order); sorting by the distinct keys makes the
result independent of the hash-iteration order. -/
def length_counts_vec (lengths : List Nat) : List (Nat × Nat) :=
  (sortDescNat lengths.dedup).map (fun k => (k, row_length_counts lengths k))

/-- `page_counts_vec`: the page-bucket counts collected into a vector and
sorted ascending by page bucket. -/
def page_counts_vec (lengths : List Nat) : List (Nat × Nat) :=
  (sortAscNat (lengths.map page_bucket).dedup).map (fun b => (b, page_length_counts lengths b))

/-! ## Outlier detection (generate_markdown_outliers_report, identical
flagging logic in both variants) -/

/-- `let outlier_threshold_upper = q3_f64 + 1.5 * iqr;` over exact
rationals. -/
def outlier_threshold_upper (stats : Statistics) : ℚ :=
  (stats.q3 : ℚ) + 3 / 2 * ((stats.q3 : ℚ) - (stats.q1 : ℚ))

/-- `let outlier_threshold_lower = q1_f64 - 1.5 * iqr;` — computed and
displayed, never used to filter. -/
def outlier_threshold_lower (stats : Statistics) : ℚ :=
  (stats.q1 : ℚ) - 3 / 2 * ((stats.q3 : ℚ) - (stats.q1 : ℚ))

/-- `lengths_by_size`: the distinct lengths of `length_counts`, sorted
descending. -/
def lengths_by_size (length_counts : List (Nat × Nat)) : List Nat :=
  sortDescNat (length_counts.map Prod.fst)

/-- `outlier_lengths`: `lengths_by_size` filtered to the values strictly
above the upper 1.5×IQR threshold computed from
`calculate_statistics(row_lengths)`. -/
def outlier_lengths (lengths : List Nat) : List Nat :=
  (lengths_by_size (length_counts_vec lengths)).filter
    (fun len => decide (outlier_threshold_upper (calculate_statistics lengths) < (len : ℚ)))

/-- The per-outlier row count:
`length_counts.iter().find(|&&(l, _)| l == length).map(|&(_, c)| c)`. -/
def outlier_row_count (lengths : List Nat) (len : Nat) : Option Nat :=
  ((length_counts_vec lengths).find? (fun p => p.1 == len)).map (fun p => p.2)

/-! ## Basic facts about the sorts -/

theorem sortAsc_perm (l : List Nat) : List.Perm (sortAsc l) l :=
  List.perm_insertionSort _ l

theorem sortAsc_length (l : List Nat) : (sortAsc l).length = l.length :=
  (sortAsc_perm l).length_eq

theorem sortAsc_sorted (l : List Nat) : List.Sorted (fun a b => a ≤ b) (sortAsc l) :=
  List.sorted_insertionSort _ l

theorem sortAsc_sum (l : List Nat) : (sortAsc l).sum = l.sum :=
  (sortAsc_perm l).sum_eq

instance : IsTotal Nat (fun a b => b ≤ a) :=
  ⟨fun a b => (Nat.le_total b a)⟩

instance : IsTrans Nat (fun a b => b ≤ a) :=
  ⟨fun _ _ _ hab hbc => Nat.le_trans hbc hab⟩

theorem sortDescNat_perm (l : List Nat) : List.Perm (sortDescNat l) l :=
  List.perm_insertionSort _ l

theorem sortDescNat_sorted (l : List Nat) : List.Sorted (fun a b => b ≤ a) (sortDescNat l) :=
  List.sorted_insertionSort _ l

/-! ## calculate_statistics: field characterization, safety, example -/

theorem calculate_statistics_fields (l : List Nat) (h : l ≠ []) :
    calculate_statistics l =
      { min := (sortAsc l).headD 0
        max := (sortAsc l).getLastD 0
        mean := ((l.sum : ℚ)) / (l.length : ℚ)
        median := spec_median (sortAsc l)
        q1 := spec_q1 (sortAsc l)
        q3 := spec_q3 (sortAsc l)
        variance := spec_population_variance (sortAsc l) } := by
  have hne : l.isEmpty = false := by
    cases l with
    | nil => exact absurd rfl h
    | cons a t => rfl
  simp only [calculate_statistics, hne, Bool.false_eq_true, if_false, spec_median, spec_q1,
    spec_q3, spec_population_variance, sortAsc_sum, sortAsc_length]

theorem calculate_statistics_example :
    calculate_statistics [10, 20, 20, 30, 1000] =
      { min := 10, max := 1000, mean := 216, median := 20, q1 := 20, q3 := 30,
        variance := 153704 } := by
  have hs : sortAsc [10, 20, 20, 30, 1000] = [10, 20, 20, 30, 1000] := by decide
  rw [calculate_statistics_fields _ (by simp), hs]
  simp only [spec_median, spec_q1, spec_q3, spec_population_variance]
  norm_num [List.getD]

theorem spec_population_variance_nonneg (sorted : List Nat) :
    0 ≤ spec_population_variance sorted := by
  unfold spec_population_variance
  apply div_nonneg
  · apply List.sum_nonneg
    intro x hx
    simp only [List.mem_map] at hx
    obtain ⟨y, _, hy⟩ := hx
    rw [← hy]
    exact mul_self_nonneg _
  · exact Nat.cast_nonneg _

theorem calculate_statistics_variance_nonneg (l : List Nat) :
    0 ≤ (calculate_statistics l).variance := by
  by_cases h : l = []
  · subst h
    simp [calculate_statistics]
  · rw [calculate_statistics_fields l h]
    exact spec_population_variance_nonneg _

theorem std_dev_sq (l : List Nat) :
    (calculate_statistics l).std_dev ^ 2 = (((calculate_statistics l).variance : ℚ) : ℝ) := by
  unfold Statistics.std_dev
  rw [Real.sq_sqrt]
  exact_mod_cast calculate_statistics_variance_nonneg l

theorem calculate_statistics_checked_eq (l : List Nat) :
    calculate_statistics_checked l = some (calculate_statistics l) := by
  by_cases h : l.isEmpty = true
  · simp [calculate_statistics_checked, calculate_statistics, h]
  · have hne : sortAsc l ≠ [] := by
      intro hc
      have := sortAsc_length l
      rw [hc] at this
      cases l with
      | nil => exact h rfl
      | cons a t => simp at this
    have hn : 0 < (sortAsc l).length := List.length_pos.mpr hne
    have hget : ∀ i, i < (sortAsc l).length →
        (sortAsc l).get? i = some ((sortAsc l).getD i 0) := by
      intro i hi
      rw [List.getD_eq_getElem _ _ hi, List.get?_eq_getElem?, List.getElem?_eq_getElem hi]
    have hhead : (sortAsc l).head? = some ((sortAsc l).headD 0) := by
      cases hs : sortAsc l with
      | nil => exact absurd hs hne
      | cons a t => rfl
    have hlast : (sortAsc l).getLast? = some ((sortAsc l).getLastD 0) := by
      rw [List.getLastD_eq_getLast?]
      rw [List.getLast?_eq_getLast _ hne]
      rfl
    have b1 : (sortAsc l).length / 2 - 1 < (sortAsc l).length := by
      have := Nat.div_lt_self hn (by norm_num : 1 < 2)
      omega
    have b2 : (sortAsc l).length / 2 < (sortAsc l).length :=
      Nat.div_lt_self hn (by norm_num)
    have b3 : (sortAsc l).length / 4 - 1 < (sortAsc l).length := by
      have := Nat.div_lt_self hn (by norm_num : 1 < 4)
      omega
    have b4 : (sortAsc l).length / 4 < (sortAsc l).length :=
      Nat.div_lt_self hn (by norm_num)
    have b6 : 3 * (sortAsc l).length / 4 < (sortAsc l).length := by
      rw [Nat.div_lt_iff_lt_mul (by norm_num : 0 < 4)]
      omega
    have b5 : 3 * (sortAsc l).length / 4 - 1 < (sortAsc l).length := by
      omega
    simp only [calculate_statistics_checked, calculate_statistics, h, Bool.false_eq_true,
      if_false, hhead, hlast, hget _ b1, hget _ b2, hget _ b3, hget _ b4, hget _ b5, hget _ b6,
      Option.bind_eq_bind, Option.some_bind, Option.pure_def]
    split_ifs <;> rfl

/-! ## Pipeline lemmas: worker, chunks, ingestion, corpus -/

/-- The entry pushed by the worker loop for one `(file_row, line)` pair. -/
def rowEntryOf (p : Nat × String) : RowEntry :=
  { file_row := p.1, char_count := p.2.length }

theorem worker_foldl (chunk : List (Nat × String)) (acc : List RowEntry) (n : Nat) :
    chunk.foldl
      (fun acc p => (acc.1 ++ [{ file_row := p.1, char_count := p.2.length }], acc.2 + p.2.length))
      (acc, n)
    = (acc ++ chunk.map rowEntryOf, n + (chunk.map (fun p => p.2.length)).sum) := by
  induction chunk generalizing acc n with
  | nil => simp
  | cons p t ih =>
    simp only [List.foldl_cons, List.map_cons, List.sum_cons, ih, List.append_assoc,
      List.singleton_append, rowEntryOf]
    rw [Nat.add_assoc]

theorem worker_eq (chunk : List (Nat × String)) :
    worker chunk = (chunk.map rowEntryOf, (chunk.map (fun p => p.2.length)).sum) := by
  unfold worker
  rw [worker_foldl]
  simp

theorem chunksOf_nil {α : Type} (k : Nat) : chunksOf k ([] : List α) = [] := by
  rw [chunksOf]
  simp

theorem chunksOf_cons_eq {α : Type} (k : Nat) (hk : k ≠ 0) (l : List α) (hl : l ≠ []) :
    chunksOf k l = l.take k :: chunksOf k (l.drop k) := by
  rw [chunksOf]
  have hemp : l.isEmpty = false := by
    cases l with
    | nil => exact absurd rfl hl
    | cons x xs => rfl
  simp [hemp, hk]

theorem chunksOf_flatten {α : Type} (k : Nat) (hk : k ≠ 0) :
    ∀ l : List α, (chunksOf k l).flatten = l
  | [] => by simp [chunksOf_nil]
  | x :: xs => by
    rw [chunksOf_cons_eq k hk _ (by simp), List.flatten_cons,
      chunksOf_flatten k hk ((x :: xs).drop k), List.take_append_drop]
termination_by l => l.length
decreasing_by
  simp only [List.length_drop, List.length_cons]
  omega

theorem lines_per_chunk_ne_zero (total W : Nat) : lines_per_chunk total W ≠ 0 :=
  Nat.succ_ne_zero _

theorem all_lines_from_mem (lines : List (Option String)) :
    ∀ idx : Nat, ∀ p ∈ all_lines_from idx lines, idx < p.1 := by
  induction lines with
  | nil =>
    intro idx p hp
    simp [all_lines_from] at hp
  | cons r rest ih =>
    intro idx p hp
    cases r with
    | none =>
      have := ih (idx + 1) p hp
      omega
    | some s =>
      simp only [all_lines_from, List.mem_cons] at hp
      rcases hp with hp | hp
      · rw [hp]
        omega
      · have := ih (idx + 1) p hp
        omega

theorem all_lines_from_pairwise (lines : List (Option String)) :
    ∀ idx : Nat, List.Pairwise (fun a b => a.1 < b.1) (all_lines_from idx lines) := by
  induction lines with
  | nil =>
    intro idx
    simp [all_lines_from]
  | cons r rest ih =>
    intro idx
    cases r with
    | none => exact ih (idx + 1)
    | some s =>
      simp only [all_lines_from]
      refine List.Pairwise.cons ?_ (ih (idx + 1))
      intro p hp
      exact all_lines_from_mem rest (idx + 1) p hp

theorem all_lines_pairwise (lines : List (Option String)) :
    List.Pairwise (fun a b => a.1 < b.1) (all_lines lines) :=
  all_lines_from_pairwise lines 0

theorem all_lines_mem_pos (lines : List (Option String)) :
    ∀ p ∈ all_lines lines, 1 ≤ p.1 := by
  intro p hp
  exact all_lines_from_mem lines 0 p hp

theorem joined_eq_map (chunks : List (List (Nat × String))) :
    joined_row_entries chunks = chunks.flatten.map rowEntryOf := by
  unfold joined_row_entries
  rw [List.map_flatten]
  congr 1
  simp [worker_eq]

theorem grand_total_eq (chunks : List (List (Nat × String))) :
    grand_total_chars chunks = (chunks.flatten.map (fun p => p.2.length)).sum := by
  unfold grand_total_chars
  rw [List.map_flatten]
  rw [List.sum_flatten]
  rw [List.map_map]
  congr 1
  simp [worker_eq]

theorem corpus_eq_map (lines : List (Option String)) (W : Nat) :
    corpus lines W = (all_lines lines).map rowEntryOf := by
  unfold corpus aggregated_entries chunks_of_lines sortByFileRow
  rw [joined_eq_map, chunksOf_flatten _ (lines_per_chunk_ne_zero _ _)]
  apply List.Sorted.insertionSort_eq
  unfold List.Sorted
  rw [List.pairwise_map]
  exact (all_lines_pairwise lines).imp (fun h => Nat.le_of_lt h)

theorem corpus_pairwise (lines : List (Option String)) (W : Nat) :
    List.Pairwise (fun a b => a.file_row < b.file_row) (corpus lines W) := by
  rw [corpus_eq_map, List.pairwise_map]
  exact all_lines_pairwise lines

theorem corpus_file_row_pos (lines : List (Option String)) (W : Nat) :
    ∀ e ∈ corpus lines W, 1 ≤ e.file_row := by
  intro e he
  rw [corpus_eq_map] at he
  obtain ⟨p, hp, hpe⟩ := List.mem_map.mp he
  rw [← hpe]
  exact all_lines_mem_pos lines p hp

/-! ## Chunk count and chunk sizes -/

theorem chunksOf_length {α : Type} (k : Nat) (hk : k ≠ 0) :
    ∀ l : List α, (chunksOf k l).length = (l.length + k - 1) / k
  | [] => by
    rw [chunksOf_nil]
    simp only [List.length_nil, Nat.zero_add]
    exact (Nat.div_eq_of_lt (by omega)).symm
  | x :: xs => by
    rw [chunksOf_cons_eq k hk _ (by simp), List.length_cons,
      chunksOf_length k hk ((x :: xs).drop k)]
    simp only [List.length_drop, List.length_cons]
    rcases le_or_lt k (xs.length + 1) with hkn | hnk
    · have h1 : xs.length + 1 - k + k - 1 = xs.length := by omega
      have h2 : xs.length + 1 + k - 1 = xs.length + k := by omega
      rw [h1, h2, Nat.add_div_right _ (Nat.pos_of_ne_zero hk)]
    · have h1 : xs.length + 1 - k = 0 := by omega
      rw [h1]
      have h2 : (0 + k - 1) / k = 0 := Nat.div_eq_of_lt (by omega)
      have h3 : (xs.length + 1 + k - 1) / k = 1 :=
        Nat.div_eq_of_lt_le (by omega) (by omega)
      rw [h2, h3]
termination_by l => l.length
decreasing_by
  simp only [List.length_drop, List.length_cons]
  omega

theorem chunksOf_mem_size {α : Type} (k : Nat) (hk : k ≠ 0) :
    ∀ l : List α, ∀ c ∈ chunksOf k l, c ≠ [] ∧ c.length ≤ k
  | [] => by simp [chunksOf_nil]
  | x :: xs => by
    intro c hc
    rw [chunksOf_cons_eq k hk _ (by simp)] at hc
    rcases List.mem_cons.mp hc with h | h
    · subst h
      refine ⟨?_, List.length_take_le k _⟩
      cases k with
      | zero => exact absurd rfl hk
      | succ m =>
        rw [List.take_succ_cons]
        exact List.cons_ne_nil x _
    · exact chunksOf_mem_size k hk ((x :: xs).drop k) c h
termination_by l => l.length
decreasing_by
  simp only [List.length_drop, List.length_cons]
  omega

theorem chunks_count_le {α : Type} (W : Nat) (hW : 1 ≤ W) (l : List α) :
    (chunksOf (lines_per_chunk l.length W) l).length ≤ W := by
  rw [chunksOf_length _ (lines_per_chunk_ne_zero _ _)]
  unfold lines_per_chunk
  have hWpos : 0 < W := hW
  obtain ⟨q, hq⟩ : ∃ q, l.length / W = q := ⟨_, rfl⟩
  rw [hq]
  obtain ⟨A, hA⟩ : ∃ A, W * q = A := ⟨_, rfl⟩
  obtain ⟨B, hB⟩ : ∃ B, W * (q + 1) = B := ⟨_, rfl⟩
  obtain ⟨C, hC⟩ : ∃ C, (W + 1) * (q + 1) = C := ⟨_, rfl⟩
  have hmod : A + l.length % W = l.length := by
    rw [← hA, ← hq]
    exact Nat.div_add_mod l.length W
  have hmlt := Nat.mod_lt l.length hWpos
  have hBA : B = A + W := by
    rw [← hA, ← hB]
    ring
  have hCB : C = B + (q + 1) := by
    rw [← hB, ← hC]
    ring
  have hnk : l.length < B := by omega
  have key : (l.length + (q + 1) - 1) / (q + 1) < W + 1 := by
    rw [Nat.div_lt_iff_lt_mul (Nat.succ_pos q), hC]
    omega
  omega

/-! ## row_entries characterization (data_index assignment) -/

theorem row_entries_length (lines : List (Option String)) (W : Nat) :
    (row_entries lines W).length = (corpus lines W).length := by
  simp [row_entries]

theorem row_entries_get (lines : List (Option String)) (W : Nat) (i : Nat)
    (hic : i < (corpus lines W).length) (hi : i < (row_entries lines W).length) :
    (row_entries lines W).get ⟨i, hi⟩ =
      ((corpus lines W)[i].file_row,
       if (corpus lines W)[i].file_row = 1 then (-1 : Int) else (i : Int) - 1,
       (corpus lines W)[i].char_count) := by
  unfold row_entries
  rw [List.get_eq_getElem, List.getElem_map, List.getElem_enum]

theorem corpus_file_row_one_position (lines : List (Option String)) (W : Nat) (i : Nat)
    (hi : i < (corpus lines W).length)
    (h1 : ((corpus lines W).get ⟨i, hi⟩).file_row = 1) : i = 0 := by
  by_contra hne
  have h0 : 0 < (corpus lines W).length := by omega
  have hpw := (List.pairwise_iff_get).mp (corpus_pairwise lines W)
  have hlt := hpw ⟨0, h0⟩ ⟨i, hi⟩ (by
    show (0 : Nat) < i
    omega)
  have hpos := corpus_file_row_pos lines W ((corpus lines W).get ⟨0, h0⟩)
    (List.get_mem _ _ _)
  omega

theorem data_index_eq_pos (lines : List (Option String)) (W : Nat) (i : Nat)
    (hi : i < (row_entries lines W).length) :
    ((row_entries lines W).get ⟨i, hi⟩).2.1 = (i : Int) - 1 := by
  have hic : i < (corpus lines W).length := by
    rw [← row_entries_length lines W]
    exact hi
  rw [row_entries_get lines W i hic hi]
  by_cases h1 : (corpus lines W)[i].file_row = 1
  · have hz := corpus_file_row_one_position lines W i hic (by
      rw [List.get_eq_getElem]
      exact h1)
    subst hz
    rw [if_pos h1]
    norm_num
  · rw [if_neg h1]

/-! ## Streaming mode produces the same length sequence -/

theorem streaming_eq_all_lines_from (lines : List (Option String)) :
    ∀ idx : Nat,
      streaming_row_lengths lines = (all_lines_from idx lines).map (fun p => p.2.length) := by
  induction lines with
  | nil =>
    intro idx
    simp [streaming_row_lengths, all_lines_from]
  | cons r rest ih =>
    intro idx
    cases r with
    | none =>
      simp only [streaming_row_lengths, List.filterMap_cons, Option.map_none', all_lines_from]
      exact ih (idx + 1)
    | some s =>
      simp only [streaming_row_lengths, List.filterMap_cons, Option.map_some', all_lines_from,
        List.map_cons]
      rw [← ih (idx + 1)]
      rfl

theorem parallel_row_lengths_eq (lines : List (Option String)) (W : Nat) :
    parallel_row_lengths lines W = (corpus lines W).map (fun e => e.char_count) := by
  unfold parallel_row_lengths row_entries
  rw [List.map_map]
  have hcomp : ((fun p : Nat × Int × Nat => p.2.2) ∘
      (fun p : Nat × RowEntry =>
        (p.2.file_row, if p.2.file_row = 1 then (-1 : Int) else (p.1 : Int) - 1, p.2.char_count)))
      = (fun e : RowEntry => e.char_count) ∘ Prod.snd := rfl
  rw [hcomp, ← List.map_map, List.enum_map_snd]

theorem streaming_eq_parallel (lines : List (Option String)) (W : Nat) :
    streaming_row_lengths lines = parallel_row_lengths lines W := by
  rw [parallel_row_lengths_eq, corpus_eq_map, List.map_map]
  exact streaming_eq_all_lines_from lines 0

/-! ## Frequency-count lemmas -/

theorem row_length_counts_foldl (lengths : List Nat) :
    ∀ (m : Nat → Nat) (c : Nat),
      (lengths.foldl updateCount m) c = m c + lengths.count c := by
  induction lengths with
  | nil =>
    intro m c
    simp
  | cons a t ih =>
    intro m c
    simp only [List.foldl_cons, ih, List.count_cons]
    unfold updateCount
    by_cases hca : c = a
    · subst hca
      simp
      omega
    · have hba : (a == c) = false := by
        simp [hca]
        intro hc
        exact hca hc.symm
      simp [hca, hba]

theorem row_length_counts_eq_count (lengths : List Nat) (c : Nat) :
    row_length_counts lengths c = lengths.count c := by
  unfold row_length_counts
  rw [row_length_counts_foldl]
  omega

theorem page_length_counts_eq (lengths : List Nat) :
    page_length_counts lengths = row_length_counts (lengths.map page_bucket) := by
  unfold page_length_counts row_length_counts
  rw [List.foldl_map]

/-! ## q1 / q3 ordering and the outlier threshold -/

theorem sortAsc_getD_mono (l : List Nat) (i j : Nat) (hij : i ≤ j)
    (hj : j < (sortAsc l).length) :
    (sortAsc l).getD i 0 ≤ (sortAsc l).getD j 0 := by
  have hi : i < (sortAsc l).length := lt_of_le_of_lt hij hj
  rw [List.getD_eq_getElem _ _ hi, List.getD_eq_getElem _ _ hj]
  have := List.Sorted.get_mono (sortAsc_sorted l)
    (show (⟨i, hi⟩ : Fin (sortAsc l).length) ≤ ⟨j, hj⟩ from hij)
  simpa using this

theorem q1_le_q3 (l : List Nat) :
    (calculate_statistics l).q1 ≤ (calculate_statistics l).q3 := by
  by_cases h : l = []
  · subst h
    simp [calculate_statistics]
  · rw [calculate_statistics_fields l h]
    simp only [spec_q1, spec_q3]
    have hn : 0 < (sortAsc l).length := by
      rw [sortAsc_length]
      exact List.length_pos.mpr h
    have hq3lt : 3 * (sortAsc l).length / 4 < (sortAsc l).length := by
      rw [Nat.div_lt_iff_lt_mul (by norm_num : 0 < 4)]
      omega
    have hdivle : (sortAsc l).length / 4 ≤ 3 * (sortAsc l).length / 4 :=
      Nat.div_le_div_right (by omega)
    by_cases h4 : (sortAsc l).length % 4 = 0
    · have h34 : 3 * (sortAsc l).length % 4 = 0 := by omega
      simp only [h4, h34, if_true]
      have hn4 : 4 ≤ (sortAsc l).length := by omega
      have e1 : (sortAsc l).getD ((sortAsc l).length / 4 - 1) 0 ≤
          (sortAsc l).getD (3 * (sortAsc l).length / 4 - 1) 0 :=
        sortAsc_getD_mono l _ _ (by omega) (by omega)
      have e2 : (sortAsc l).getD ((sortAsc l).length / 4) 0 ≤
          (sortAsc l).getD (3 * (sortAsc l).length / 4) 0 :=
        sortAsc_getD_mono l _ _ hdivle hq3lt
      exact Nat.div_le_div_right (by omega)
    · have h34 : ¬ 3 * (sortAsc l).length % 4 = 0 := by omega
      simp only [h4, h34, if_false]
      exact sortAsc_getD_mono l _ _ hdivle hq3lt

theorem q3_le_upper (l : List Nat) :
    ((calculate_statistics l).q3 : ℚ) ≤ outlier_threshold_upper (calculate_statistics l) := by
  unfold outlier_threshold_upper
  have hq : ((calculate_statistics l).q1 : ℚ) ≤ ((calculate_statistics l).q3 : ℚ) := by
    exact_mod_cast q1_le_q3 l
  linarith

theorem lengths_by_size_eq (lengths : List Nat) :
    lengths_by_size (length_counts_vec lengths) = sortDescNat (sortDescNat lengths.dedup) := by
  unfold lengths_by_size length_counts_vec
  rw [List.map_map]
  have hcomp : (Prod.fst ∘ fun k => (k, row_length_counts lengths k)) = fun k : Nat => k := rfl
  rw [hcomp, List.map_id']

theorem mem_lengths_by_size (lengths : List Nat) (len : Nat) :
    len ∈ lengths_by_size (length_counts_vec lengths) ↔ len ∈ lengths := by
  rw [lengths_by_size_eq]
  rw [(sortDescNat_perm _).mem_iff, (sortDescNat_perm _).mem_iff]
  exact List.mem_dedup

theorem mem_outlier_lengths (lengths : List Nat) (len : Nat) :
    len ∈ outlier_lengths lengths ↔
      len ∈ lengths ∧ outlier_threshold_upper (calculate_statistics lengths) < (len : ℚ) := by
  unfold outlier_lengths
  rw [List.mem_filter, mem_lengths_by_size, decide_eq_true_eq]

theorem find?_key_map {β : Type} (g : Nat → β) (len : Nat) :
    ∀ keys : List Nat, len ∈ keys →
      (keys.map (fun k => (k, g k))).find? (fun p => p.1 == len) = some (len, g len) := by
  intro keys
  induction keys with
  | nil => intro h; simp at h
  | cons k t ih =>
    intro h
    simp only [List.map_cons, List.find?_cons]
    by_cases hk : k = len
    · subst hk
      simp
    · have hkb : (k == len) = false := by
        simp [hk]
      simp only [hkb]
      apply ih
      rcases List.mem_cons.mp h with hh | hh
      · exact absurd hh.symm hk
      · exact hh

theorem outlier_row_count_eq (lengths : List Nat) (len : Nat) (hmem : len ∈ lengths) :
    outlier_row_count lengths len = some (row_length_counts lengths len) := by
  unfold outlier_row_count length_counts_vec
  rw [find?_key_map (fun k => row_length_counts lengths k) len (sortDescNat lengths.dedup)
    (by rw [(sortDescNat_perm _).mem_iff, List.mem_dedup]; exact hmem)]
  rfl

/-! ## Claim theorems -/

/-- C1: for every non-empty list of lengths, `calculate_statistics` follows
the spec's exact quantile rule (integer-division indices, tie-averaging
exactly under `n % 4 == 0` resp. `3n % 4 == 0`, median averaging for even
`n`, and `std_dev` the square root of the population variance with divisor
`n`); on `[10, 20, 20, 30, 1000]` it yields median 20, q1 20, q3 30,
mean 216.0 and std_dev ≈ 392.1 (strictly between 392 and 392.1). -/
theorem statistics_follow_spec_rule (l : List Nat) (h : l ≠ []) :
    (calculate_statistics l).median = spec_median (sortAsc l)
  ∧ (calculate_statistics l).q1 = spec_q1 (sortAsc l)
  ∧ (calculate_statistics l).q3 = spec_q3 (sortAsc l)
  ∧ (calculate_statistics l).mean = ((l.sum : ℚ)) / (l.length : ℚ)
  ∧ (calculate_statistics l).std_dev ^ 2 = ((spec_population_variance (sortAsc l) : ℚ) : ℝ)
  ∧ calculate_statistics [10, 20, 20, 30, 1000] =
      { min := 10, max := 1000, mean := 216, median := 20, q1 := 20, q3 := 30,
        variance := 153704 }
  ∧ (392 : ℝ) < (calculate_statistics [10, 20, 20, 30, 1000]).std_dev
  ∧ (calculate_statistics [10, 20, 20, 30, 1000]).std_dev < 392.1 := by
  have hf := calculate_statistics_fields l h
  have hv : (calculate_statistics [10, 20, 20, 30, 1000]).variance = 153704 := by
    rw [calculate_statistics_example]
  refine ⟨by rw [hf], by rw [hf], by rw [hf], by rw [hf],
    by rw [std_dev_sq l, hf], calculate_statistics_example, ?_, ?_⟩
  · unfold Statistics.std_dev
    rw [hv]
    have hc : (((153704 : ℚ)) : ℝ) = (153704 : ℝ) := by norm_num
    rw [hc, Real.lt_sqrt (by norm_num)]
    norm_num
  · unfold Statistics.std_dev
    rw [hv]
    have hc : (((153704 : ℚ)) : ℝ) = (153704 : ℝ) := by norm_num
    rw [hc, Real.sqrt_lt' (by norm_num)]
    norm_num

/-- Witness for C1 at the spec's own example input. -/
theorem statistics_follow_spec_rule_witness :
    (calculate_statistics [10, 20, 20, 30, 1000]).median =
      spec_median (sortAsc [10, 20, 20, 30, 1000]) :=
  (statistics_follow_spec_rule [10, 20, 20, 30, 1000] (by decide)).1

/-- C2: for every input line list and every worker count `W ≥ 1`, the
aggregated Corpus is sorted strictly ascending by `file_row` and is the
same sequence as with a single worker. -/
theorem aggregator_order_invariant (lines : List (Option String)) (W : Nat) (hW : 1 ≤ W) :
    List.Pairwise (fun a b => a.file_row < b.file_row) (corpus lines W)
  ∧ corpus lines W = corpus lines 1 := by
  refine ⟨corpus_pairwise lines W, ?_⟩
  rw [corpus_eq_map, corpus_eq_map]

/-- Witness for C2 on a concrete three-line input with the shipped worker
count. -/
theorem aggregator_order_invariant_witness :
    List.Pairwise (fun a b => a.file_row < b.file_row)
        (corpus [some "a", none, some "bcd"] WORKER_THREADS)
  ∧ corpus [some "a", none, some "bcd"] WORKER_THREADS
      = corpus [some "a", none, some "bcd"] 1 :=
  aggregator_order_invariant [some "a", none, some "bcd"] WORKER_THREADS (by decide)

/-- C3: on an input with no per-line read failures, the streaming mode and
the parallel mode compute identical statistics and identical length / page
frequency tables (both as count functions — order-insensitive — and as the
canonically sorted vectors). -/
theorem mode_equivalence (lines : List (Option String)) (W : Nat)
    (hok : ∀ r ∈ lines, r.isSome = true) :
    calculate_statistics (streaming_row_lengths lines)
      = calculate_statistics (parallel_row_lengths lines W)
  ∧ (∀ c, row_length_counts (streaming_row_lengths lines) c
      = row_length_counts (parallel_row_lengths lines W) c)
  ∧ (∀ b, page_length_counts (streaming_row_lengths lines) b
      = page_length_counts (parallel_row_lengths lines W) b)
  ∧ length_counts_vec (streaming_row_lengths lines)
      = length_counts_vec (parallel_row_lengths lines W)
  ∧ page_counts_vec (streaming_row_lengths lines)
      = page_counts_vec (parallel_row_lengths lines W) := by
  rw [streaming_eq_parallel lines W]
  exact ⟨rfl, fun _ => rfl, fun _ => rfl, rfl, rfl⟩

/-- Witness for C3 on a concrete failure-free input. -/
theorem mode_equivalence_witness :
    calculate_statistics (streaming_row_lengths [some "a", some "bc"])
      = calculate_statistics (parallel_row_lengths [some "a", some "bc"] 2) :=
  (mode_equivalence [some "a", some "bc"] 2 (by decide)).1

/-- C4: the sum of the per-chunk partial character totals equals the sum of
`char_count` over the aggregated (sorted) sequence — for an arbitrary chunk
list, and for the pipeline's own partitioning at any worker count. -/
theorem chunk_sum_invariant (chunks : List (List (Nat × String)))
    (lines : List (Option String)) (W : Nat) :
    grand_total_chars chunks
      = ((aggregated_entries chunks).map (fun e => e.char_count)).sum
  ∧ grand_total_chars (chunks_of_lines lines W)
      = ((corpus lines W).map (fun e => e.char_count)).sum := by
  have key : ∀ cs : List (List (Nat × String)),
      grand_total_chars cs = ((aggregated_entries cs).map (fun e => e.char_count)).sum := by
    intro cs
    rw [grand_total_eq]
    unfold aggregated_entries sortByFileRow
    rw [joined_eq_map]
    have hperm := ((List.perm_insertionSort
      (fun a b : RowEntry => a.file_row ≤ b.file_row)
      (cs.flatten.map rowEntryOf)).map (fun e => e.char_count)).sum_eq
    rw [hperm, List.map_map]
    rfl
  refine ⟨key chunks, ?_⟩
  unfold corpus
  exact key (chunks_of_lines lines W)

/-- C5 counterexample: on an input whose first line fails to read, the
first surviving row gets `data_index = -1` although its `file_row` is 2,
refuting the claimed equivalence `data_index == -1 ↔ file_row == 1`. -/
theorem header_rule_counterexample :
    ¬ (∀ p ∈ row_entries [none, some "ab"] WORKER_THREADS, (p.2.1 = -1 ↔ p.1 = 1)) := by
  intro hall
  have hre : row_entries [none, some "ab"] WORKER_THREADS
      = [(2, -1, 2)] := by
    unfold row_entries
    rw [corpus_eq_map]
    decide
  rw [hre] at hall
  have hcontr := (hall (2, -1, 2) (by simp)).mp rfl
  exact absurd hcontr (by decide)

/-- C5 (amended): in the final sorted sequence, the entry at 0-based
position `i` always gets `data_index = i - 1` (so `-1` lands exactly at
position 0); the equivalence `data_index == -1 ↔ file_row == 1` holds
whenever line 1 was successfully ingested (it fails only when line 1 was
dropped by a read error). -/
theorem header_rule_amended (lines : List (Option String)) (W : Nat) :
    (∀ i (hi : i < (row_entries lines W).length),
        ((row_entries lines W).get ⟨i, hi⟩).2.1 = (i : Int) - 1)
  ∧ ((∃ s rest, lines = some s :: rest) →
      ∀ p ∈ row_entries lines W, (p.2.1 = -1 ↔ p.1 = 1)) := by
  refine ⟨data_index_eq_pos lines W, ?_⟩
  rintro ⟨s, rest, rfl⟩ p hp
  obtain ⟨⟨i, hi⟩, hpi⟩ := List.mem_iff_get.mp hp
  rw [← hpi]
  have hic : i < (corpus (some s :: rest) W).length := by
    rw [← row_entries_length]
    exact hi
  rw [row_entries_get _ W i hic hi]
  by_cases h1 : (corpus (some s :: rest) W)[i].file_row = 1
  · rw [if_pos h1]
    simp [h1]
  · rw [if_neg h1]
    constructor
    · intro hminus
      exfalso
      simp only at hminus
      have hi0 : i = 0 := by omega
      subst hi0
      apply h1
      have hcor : corpus (some s :: rest) W
          = { file_row := 1, char_count := s.length } :: (all_lines_from 1 rest).map rowEntryOf := by
        rw [corpus_eq_map]
        rfl
      simp only [hcor, List.getElem_cons_zero]
    · intro hone
      exact absurd hone h1

/-- Witness for C5 (amended) on a concrete input whose line 1 ingests. -/
theorem header_rule_amended_witness :
    ∀ p ∈ row_entries [some "h", none, some "ab"] WORKER_THREADS, (p.2.1 = -1 ↔ p.1 = 1) :=
  (header_rule_amended [some "h", none, some "ab"] WORKER_THREADS).2
    ⟨"h", [none, some "ab"], rfl⟩

/-- C6 counterexample: the partitioner's chunk size is
`total / W + 1`, not `ceil(total / W)` — with 8 rows and `W = 8` it makes
4 chunks (the first of size 2) although `ceil(8/8) = 1` — and the empty
input yields 0 chunks, not at least 1. -/
theorem partitioner_counterexample :
    (chunksOf (lines_per_chunk ([] : List (Nat × String)).length WORKER_THREADS)
        ([] : List (Nat × String))).length = 0
  ∧ (chunksOf (lines_per_chunk (List.replicate 8 ((0 : Nat), "x")).length WORKER_THREADS)
        (List.replicate 8 ((0 : Nat), "x"))).length = 4
  ∧ ((chunksOf (lines_per_chunk (List.replicate 8 ((0 : Nat), "x")).length WORKER_THREADS)
        (List.replicate 8 ((0 : Nat), "x"))).headD []).length = 2
  ∧ (List.replicate 8 ((0 : Nat), "x")).length = 8
  ∧ ((8 : Nat) + WORKER_THREADS - 1) / WORKER_THREADS = 1 := by
  have hk : lines_per_chunk (List.replicate 8 ((0 : Nat), "x")).length WORKER_THREADS = 2 := by
    decide
  refine ⟨?_, ?_, ?_, by decide, by decide⟩
  · rw [chunksOf_nil]
    rfl
  · rw [chunksOf_length _ (lines_per_chunk_ne_zero _ _)]
    decide
  · rw [hk, chunksOf_cons_eq 2 (by decide) _ (by decide)]
    decide

/-- C6 (amended): for `W ≥ 1` the partitioner splits the row list into
contiguous chunks of size at most `lines_per_chunk = total / W + 1`
(floor division plus one, not `ceil(total / W)`), preserving order
(the chunks concatenate back to the input); the chunk count is at most `W`,
and is at least 1 exactly when the input is non-empty (the empty input
yields no chunks). -/
theorem partitioner_amended (rows : List (Nat × String)) (W : Nat) (hW : 1 ≤ W) :
    (chunksOf (lines_per_chunk rows.length W) rows).flatten = rows
  ∧ (∀ c ∈ chunksOf (lines_per_chunk rows.length W) rows,
      c ≠ [] ∧ c.length ≤ lines_per_chunk rows.length W)
  ∧ (chunksOf (lines_per_chunk rows.length W) rows).length ≤ W
  ∧ (rows ≠ [] → 1 ≤ (chunksOf (lines_per_chunk rows.length W) rows).length)
  ∧ lines_per_chunk rows.length W = rows.length / W + 1 := by
  refine ⟨chunksOf_flatten _ (lines_per_chunk_ne_zero _ _) rows,
    chunksOf_mem_size _ (lines_per_chunk_ne_zero _ _) rows,
    chunks_count_le W hW rows, ?_, rfl⟩
  intro hne
  rw [chunksOf_length _ (lines_per_chunk_ne_zero _ _)]
  have hpos : 0 < rows.length := List.length_pos.mpr hne
  have hkpos : 0 < lines_per_chunk rows.length W :=
    Nat.pos_of_ne_zero (lines_per_chunk_ne_zero _ _)
  rw [Nat.le_div_iff_mul_le hkpos]
  omega

/-- Witness for C6 (amended) on a concrete one-row input. -/
theorem partitioner_amended_witness :
    (chunksOf (lines_per_chunk ([((1 : Nat), "a")] : List (Nat × String)).length WORKER_THREADS)
        [((1 : Nat), "a")]).flatten = [((1 : Nat), "a")]
  ∧ (∀ c ∈ chunksOf (lines_per_chunk ([((1 : Nat), "a")] : List (Nat × String)).length
        WORKER_THREADS) [((1 : Nat), "a")],
      c ≠ [] ∧ c.length ≤ lines_per_chunk ([((1 : Nat), "a")] : List (Nat × String)).length
        WORKER_THREADS)
  ∧ (chunksOf (lines_per_chunk ([((1 : Nat), "a")] : List (Nat × String)).length WORKER_THREADS)
        [((1 : Nat), "a")]).length ≤ WORKER_THREADS
  ∧ (([((1 : Nat), "a")] : List (Nat × String)) ≠ [] →
      1 ≤ (chunksOf (lines_per_chunk ([((1 : Nat), "a")] : List (Nat × String)).length
        WORKER_THREADS) [((1 : Nat), "a")]).length)
  ∧ lines_per_chunk ([((1 : Nat), "a")] : List (Nat × String)).length WORKER_THREADS
      = ([((1 : Nat), "a")] : List (Nat × String)).length / WORKER_THREADS + 1 :=
  partitioner_amended [((1 : Nat), "a")] WORKER_THREADS (by decide)

/-- C7: the flagged outlier set is exactly the distinct length values
strictly above `upper = q3 + 1.5 * (q3 - q1)`, sorted descending, each with
its row count taken from the frequency table; no flagged length is below
`q1` (the lower threshold never filters); with the example input
(`q1 = 20`, `q3 = 30`, `upper = 45`), 1000 is flagged and 40 is not. -/
theorem outlier_detector_rule (lengths : List Nat) :
    (∀ len, len ∈ outlier_lengths lengths ↔
        (len ∈ lengths ∧
          outlier_threshold_upper (calculate_statistics lengths) < (len : ℚ)))
  ∧ List.Sorted (fun a b => b ≤ a) (outlier_lengths lengths)
  ∧ (∀ len ∈ outlier_lengths lengths,
      outlier_row_count lengths len = some (row_length_counts lengths len))
  ∧ (∀ len ∈ outlier_lengths lengths, (calculate_statistics lengths).q1 ≤ len)
  ∧ outlier_threshold_upper (calculate_statistics [10, 20, 20, 30, 1000]) = 45
  ∧ outlier_lengths [10, 20, 20, 30, 1000] = [1000]
  ∧ (40 : Nat) ∉ outlier_lengths [10, 20, 20, 30, 1000] := by
  have hupper : outlier_threshold_upper (calculate_statistics [10, 20, 20, 30, 1000]) = 45 := by
    rw [calculate_statistics_example]
    unfold outlier_threshold_upper
    norm_num
  have hout : outlier_lengths [10, 20, 20, 30, 1000] = [1000] := by
    have hlbs : lengths_by_size (length_counts_vec [10, 20, 20, 30, 1000])
        = [1000, 30, 20, 10] := by
      rw [lengths_by_size_eq]
      decide
    unfold outlier_lengths
    rw [hlbs]
    simp only [hupper]
    norm_num [List.filter_cons, List.filter_nil]
  refine ⟨mem_outlier_lengths lengths, ?_, ?_, ?_, hupper, hout, ?_⟩
  · unfold outlier_lengths
    apply List.Pairwise.filter
    rw [lengths_by_size_eq]
    exact sortDescNat_sorted _
  · intro len hlen
    exact outlier_row_count_eq lengths len ((mem_outlier_lengths lengths len).mp hlen).1
  · intro len hlen
    have hgt := ((mem_outlier_lengths lengths len).mp hlen).2
    have hq3 := q3_le_upper lengths
    have hq1 : ((calculate_statistics lengths).q1 : ℚ)
        ≤ ((calculate_statistics lengths).q3 : ℚ) := by
      exact_mod_cast q1_le_q3 lengths
    have : ((calculate_statistics lengths).q1 : ℚ) ≤ (len : ℚ) := by linarith
    exact_mod_cast this
  · intro hmem
    rw [hout] at hmem
    exact absurd hmem (by decide)

/-- Witness for C7: the row count reported for the flagged length 1000 of
the example input comes from its frequency-table group. -/
theorem outlier_detector_rule_witness :
    outlier_row_count [10, 20, 20, 30, 1000] 1000
      = some (row_length_counts [10, 20, 20, 30, 1000] 1000) :=
  (outlier_detector_rule [10, 20, 20, 30, 1000]).2.2.1 1000
    (by rw [(outlier_detector_rule [10, 20, 20, 30, 1000]).2.2.2.2.2.1]; simp)

/-- C8: the empty input is not an error — `calculate_statistics []` is the
all-zero record (with zero standard deviation, no division by zero), and
the length and page frequency tables are empty. -/
theorem empty_input_zero_statistics :
    calculate_statistics [] =
      { min := 0, max := 0, mean := 0, median := 0, q1 := 0, q3 := 0, variance := 0 }
  ∧ (calculate_statistics []).std_dev = 0
  ∧ (∀ c, row_length_counts [] c = 0)
  ∧ length_counts_vec [] = []
  ∧ page_counts_vec [] = []
  ∧ streaming_row_lengths [] = []
  ∧ (∀ W, parallel_row_lengths [] W = []) := by
  refine ⟨rfl, ?_, fun _ => rfl, rfl, rfl, rfl, ?_⟩
  · have h0 : (calculate_statistics []).variance = 0 := rfl
    unfold Statistics.std_dev
    rw [h0]
    simp
  · intro W
    rw [parallel_row_lengths_eq, corpus_eq_map]
    rfl

/-- C9: the page bucket is ceiling division of `char_count` by
`CHARS_PER_PAGE = 3000`: bucket 1 for 3000 characters, bucket 2 for 3001,
bucket 0 for 0. -/
theorem page_bucket_ceiling (c : Nat) :
    page_bucket c = c ⌈/⌉ CHARS_PER_PAGE
  ∧ page_bucket 3000 = 1 ∧ page_bucket 3001 = 2 ∧ page_bucket 0 = 0 := by
  refine ⟨?_, rfl, rfl, rfl⟩
  rw [Nat.ceilDiv_eq_add_pred_div]
  rfl

/-- C10: `calculate_statistics` is total and never indexes out of bounds:
the variant with checked indexing returns `some` of the same record on
every input (in particular the empty one), and the two averaging guards
`n % 4 == 0` and `3n % 4 == 0` are equivalent. -/
theorem calculate_statistics_safe (l : List Nat) :
    calculate_statistics_checked l = some (calculate_statistics l)
  ∧ calculate_statistics_checked [] =
      some { min := 0, max := 0, mean := 0, median := 0, q1 := 0, q3 := 0, variance := 0 }
  ∧ (∀ n : Nat, (n % 4 = 0 ↔ 3 * n % 4 = 0)) :=
  ⟨calculate_statistics_checked_eq l, rfl, fun n => by omega⟩

end CsvTools
